import Mathlib

/-!
Shallow embedding of `src/car_rental_app.py`, a small in-memory car rental
service, together with proofs of the specification's claims about it.

Modelling conventions:
* Python `datetime` values are only ever compared with `<=` / `<` in the
  source, so dates are embedded as `Int`.
* Python `dict` is embedded as an association list `List (Nat × α)` in
  insertion order; `dict[k] = v` is `dinsert` (update-in-place if the key
  exists, else append — exactly CPython's insertion-order semantics) and
  `dict.get(k)` is `dget`.
* The Python `Booking` object holds references to its `User` and `Car`
  objects; object references are embedded as the referenced identifiers
  (under the store's key invariant an identifier determines the object).
* The per-class id counters (`User._id_counter`, ...) are fields of the
  service state, initialised to 1 as in the source; the source has a single
  global service instance, so per-instance counters coincide with the
  class-level ones.
* Exceptions (`raise ValueError`) are embedded with `Except`: `book_car`
  performs no mutation before any of its `raise` points, so a failing call
  returns the error and the state is the pre-call state.
-/

/-- Embedding of `d.get(k)` on an association list embedding a Python dict. -/
def dget (l : List (Nat × α)) (k : Nat) : Option α :=
  match l with
  | [] => none
  | (k', v) :: t => if k' = k then some v else dget t k

/-- Embedding of `d[k] = v` on an association list embedding a Python dict: update the
value in place if the key is present (keeping its position), else append. -/
def dinsert (l : List (Nat × α)) (k : Nat) (v : α) : List (Nat × α) :=
  match l with
  | [] => [(k, v)]
  | (k', v') :: t => if k' = k then (k, v) :: t else (k', v') :: dinsert t k v

/-- Embedding of `class User` (line 45): id, name, email. -/
structure User where
  id : Nat
  name : String
  email : String
  deriving DecidableEq, Repr

/-- Embedding of `class Booking` (line 91): id, user reference, car reference, dates.
References are embedded as the referenced identifiers. -/
structure Booking where
  id : Nat
  user_id : Nat
  car_id : Nat
  start_date : Int
  end_date : Int
  deriving DecidableEq, Repr

/-- Embedding of `class Car` (line 60): id, name, type, price, and its booking list. -/
structure Car where
  id : Nat
  name : String
  car_type : String
  price_per_day : Int
  bookings : List Booking
  deriving DecidableEq, Repr

/-- Embedding of `Car.is_available` (lines 74-80): the car is available for
`[start_date, end_date]` iff no existing booking `[s, e]` satisfies
`start_date <= e and s <= end_date`; the Python loop returns `False` on the
first overlapping booking and `True` if none overlaps. -/
def Car.is_available (car : Car) (start_date end_date : Int) : Bool :=
  car.bookings.all fun booking =>
    ! (decide (start_date ≤ booking.end_date) && decide (booking.start_date ≤ end_date))

/-- Embedding of `Car.to_dict` (lines 82-88): the projection returned by `list_cars`. -/
structure CarDict where
  id : Nat
  name : String
  car_type : String
  price_per_day : Int
  deriving DecidableEq, Repr

def Car.to_dict (car : Car) : CarDict :=
  { id := car.id, name := car.name, car_type := car.car_type,
    price_per_day := car.price_per_day }

/-- Embedding of `Booking.to_dict` (lines 104-111): the projection returned by
`list_bookings`; `strftime` on a date is injective, so dates stay `Int`. -/
structure BookingDict where
  id : Nat
  user_id : Nat
  car_id : Nat
  start_date : Int
  end_date : Int
  deriving DecidableEq, Repr

def Booking.to_dict (b : Booking) : BookingDict :=
  { id := b.id, user_id := b.user_id, car_id := b.car_id,
    start_date := b.start_date, end_date := b.end_date }

/-- The distinguishable failure kinds of the booking pipeline: the three
`raise ValueError` sites of `RentalService.book_car` (lines 144, 147, 150)
and the invalid-range rejection of the transport endpoint (lines 210-211). -/
inductive Err where
  | userNotFound (user_id : Nat)
  | carNotFound (car_id : Nat)
  | unavailable
  | invalidRange
  deriving DecidableEq, Repr

/-- Embedding of `class RentalService` (lines 114-120) plus the three per-class id
counters (`User._id_counter`, `Car._id_counter`, `Booking._id_counter`,
each starting at 1). -/
structure RentalService where
  users : List (Nat × User)
  cars : List (Nat × Car)
  bookings : List (Nat × Booking)
  user_ctr : Nat
  car_ctr : Nat
  booking_ctr : Nat
  deriving DecidableEq, Repr

namespace RentalService

/-- A freshly constructed service (`RentalService.__init__`, counters at 1). -/
def empty : RentalService :=
  { users := [], cars := [], bookings := [],
    user_ctr := 1, car_ctr := 1, booking_ctr := 1 }

/-- Embedding of `RentalService.get_user` (lines 138-139). -/
def get_user (s : RentalService) (user_id : Nat) : Option User :=
  dget s.users user_id

/-- Embedding of `RentalService.get_car` (lines 135-136). -/
def get_car (s : RentalService) (car_id : Nat) : Option Car :=
  dget s.cars car_id

/-- Embedding of `RentalService.add_user` (lines 122-125): `User.__init__` assigns the
counter as id and increments it; the user is stored under its id. -/
def add_user (s : RentalService) (name email : String) :
    RentalService × User :=
  let user : User := { id := s.user_ctr, name := name, email := email }
  ({ s with users := dinsert s.users user.id user, user_ctr := s.user_ctr + 1 },
   user)

/-- Embedding of `RentalService.add_car` (lines 127-130): `Car.__init__` assigns the
counter as id, increments it, and starts with an empty booking list. -/
def add_car (s : RentalService) (name car_type : String)
    (price_per_day : Int) : RentalService × Car :=
  let car : Car := { id := s.car_ctr, name := name, car_type := car_type,
                     price_per_day := price_per_day, bookings := [] }
  ({ s with cars := dinsert s.cars car.id car, car_ctr := s.car_ctr + 1 },
   car)

/-- Embedding of `RentalService.list_cars` (lines 132-133). -/
def list_cars (s : RentalService) : List CarDict :=
  s.cars.map fun kv => kv.2.to_dict

/-- Embedding of `RentalService.list_bookings` (lines 156-157). -/
def list_bookings (s : RentalService) : List BookingDict :=
  s.bookings.map fun kv => kv.2.to_dict

/-- Embedding of `RentalService.book_car` (lines 141-154): look up the user, then the
car, check availability, then construct the `Booking` (assigning and
incrementing the booking counter), append it to the car's booking list
(an in-place mutation of the car stored under key `car_id`) and insert it
into the ledger under its id. The three `raise` sites become errors; no
state is mutated before any of them. -/
def book_car (s : RentalService) (user_id car_id : Nat)
    (start_date end_date : Int) : Except Err (RentalService × Booking) :=
  match s.get_user user_id with
  | none => .error (.userNotFound user_id)
  | some user =>
    match s.get_car car_id with
    | none => .error (.carNotFound car_id)
    | some car =>
      if car.is_available start_date end_date then
        let booking : Booking :=
          { id := s.booking_ctr, user_id := user.id, car_id := car.id,
            start_date := start_date, end_date := end_date }
        let car' : Car := { car with bookings := car.bookings ++ [booking] }
        .ok ({ s with
                cars := dinsert s.cars car_id car',
                bookings := dinsert s.bookings booking.id booking,
                booking_ctr := s.booking_ctr + 1 },
             booking)
      else .error .unavailable

/-- Embedding of `book_car_endpoint` (lines 190-216), after JSON decoding succeeded:
the transport rejects `end_date < start_date` (lines 210-211) before
calling `RentalService.book_car`. -/
def book_endpoint (s : RentalService) (user_id car_id : Nat)
    (start_date end_date : Int) : Except Err (RentalService × Booking) :=
  if end_date < start_date then .error .invalidRange
  else book_car s user_id car_id start_date end_date

end RentalService

/-- The operations a client can perform on the service: registrations,
booking attempts (through the core or through the transport endpoint,
whose outcome may be a failure), and the read-only listings. -/
inductive Op where
  | addUser (name email : String)
  | addCar (name car_type : String) (price_per_day : Int)
  | book (user_id car_id : Nat) (start_date end_date : Int)
  | bookE (user_id car_id : Nat) (start_date end_date : Int)
  | listCars
  | listBookings
  deriving DecidableEq, Repr

/-- The state after one operation: a failed booking raises and mutates
nothing, so it leaves the state unchanged; the listings only read. -/
def exec (s : RentalService) : Op → RentalService
  | .addUser name email => (s.add_user name email).1
  | .addCar name car_type price => (s.add_car name car_type price).1
  | .book uid cid sd ed =>
    match s.book_car uid cid sd ed with
    | .ok (s', _) => s'
    | .error _ => s
  | .bookE uid cid sd ed =>
    match s.book_endpoint uid cid sd ed with
    | .ok (s', _) => s'
    | .error _ => s
  | .listCars => s
  | .listBookings => s

/-- Running a sequence of operations from a state. -/
def run (s : RentalService) (ops : List Op) : RentalService :=
  ops.foldl exec s

/-- The states reachable from a freshly constructed service by any
sequence of operations (the module-level pre-seeded cars of lines 163-165
are three `addCar` steps, hence reachable). -/
inductive Reachable : RentalService → Prop
  | init : Reachable RentalService.empty
  | step {s : RentalService} (op : Op) : Reachable s → Reachable (exec s op)

/-- Closed-interval overlap of two bookings' date ranges (glossary §4.2):
`[s1,e1]` and `[s2,e2]` overlap iff `s1 <= e2` and `s2 <= e1`. `nonOverlap`
is its negation. -/
def nonOverlap (b1 b2 : Booking) : Prop :=
  ¬ (b1.start_date ≤ b2.end_date ∧ b2.start_date ≤ b1.end_date)

/-- A demonstration trace: register a user, register a car, make one
successful booking. -/
def demoOps : List Op :=
  [Op.addUser "Alice" "alice@example.com",
   Op.addCar "Peugeot 208" "Economy" 45,
   Op.book 1 1 10 12]

def demoState : RentalService := run RentalService.empty demoOps

/-- A trace that drives the core booking service with an inverted date
range (`start_date = 5 > 3 = end_date`), bypassing the transport check. -/
def invertedOps : List Op :=
  [Op.addUser "Alice" "alice@example.com",
   Op.addCar "Peugeot 208" "Economy" 45,
   Op.book 1 1 5 3]

def invertedState : RentalService := run RentalService.empty invertedOps

/-- An operation respects the date-range discipline when any direct core
`book` call has `start_date ≤ end_date` (the transport `bookE` needs no
restriction: it rejects inverted ranges itself). -/
def Op.rangeOk : Op → Bool
  | .book _ _ sd ed => sd ≤ ed
  | _ => true

/-- Booking attempts (through either layer), as opposed to registrations
and reads. -/
def Op.isBook : Op → Bool
  | .book _ _ _ _ => true
  | .bookE _ _ _ _ => true
  | _ => false

/-- A sample stored booking covering days 10 to 20. -/
def wBooking : Booking :=
  { id := 1, user_id := 1, car_id := 1, start_date := 10, end_date := 20 }

/-- A sample car holding `wBooking`. -/
def wCar : Car :=
  { id := 1, name := "Peugeot 208", car_type := "Economy",
    price_per_day := 45, bookings := [wBooking] }

/-- The booking created by the third step of `demoOps`. -/
def demoBooking : Booking :=
  { id := 1, user_id := 1, car_id := 1, start_date := 10, end_date := 12 }

/-- The car registered by the second step of `demoOps`, after the booking
of the third step was appended to its list. -/
def demoCar : Car :=
  { id := 1, name := "Peugeot 208", car_type := "Economy",
    price_per_day := 45, bookings := [demoBooking] }

/-! ## Association-list (Python dict) lemmas -/

theorem mem_of_dget_eq_some {l : List (Nat × α)} {k : Nat} {v : α}
    (h : dget l k = some v) : (k, v) ∈ l := by
  induction l with
  | nil => simp [dget] at h
  | cons kv t ih =>
    rw [dget] at h
    split at h
    · rename_i hk
      cases h
      simp only [List.mem_cons]
      left
      cases kv
      simp_all
    · exact List.mem_cons_of_mem _ (ih h)

theorem dget_isSome_iff {l : List (Nat × α)} {k : Nat} :
    (dget l k).isSome ↔ k ∈ l.map Prod.fst := by
  induction l with
  | nil => simp [dget]
  | cons kv t ih =>
    rw [dget]
    split
    · rename_i hk
      simp [← hk]
    · rename_i hk
      simp only [List.map_cons, List.mem_cons, ih]
      constructor
      · exact Or.inr
      · rintro (h | h)
        · exact absurd h.symm hk
        · exact h

theorem dinsert_of_not_mem {l : List (Nat × α)} {k : Nat} (v : α)
    (h : k ∉ l.map Prod.fst) : dinsert l k v = l ++ [(k, v)] := by
  induction l with
  | nil => rfl
  | cons kv t ih =>
    simp only [List.map_cons, List.mem_cons] at h
    push_neg at h
    rw [dinsert, if_neg (fun he => h.1 he.symm), ih h.2]
    rfl

theorem map_cond_id {l : List (Nat × α)} {k : Nat} (x : Nat × α)
    (h : k ∉ l.map Prod.fst) :
    (l.map fun kv => if kv.1 = k then x else kv) = l := by
  induction l with
  | nil => rfl
  | cons kv t ih =>
    simp only [List.map_cons, List.mem_cons] at h
    push_neg at h
    rw [List.map_cons, if_neg (fun he => h.1 he.symm), ih h.2]

theorem dinsert_eq_map {l : List (Nat × α)} {k : Nat} {w : α} (v : α)
    (hn : (l.map Prod.fst).Nodup) (hm : (k, w) ∈ l) :
    dinsert l k v = l.map fun kv => if kv.1 = k then (k, v) else kv := by
  induction l with
  | nil => simp at hm
  | cons kv t ih =>
    simp only [List.map_cons, List.nodup_cons] at hn
    rw [dinsert, List.map_cons]
    by_cases hk : kv.1 = k
    · rw [if_pos hk, if_pos hk, map_cond_id _ (hk ▸ hn.1)]
    · rw [if_neg hk, if_neg hk]
      rcases List.mem_cons.mp hm with h | h
      · exact absurd (congrArg Prod.fst h.symm) hk
      · rw [ih hn.2 h]

theorem keys_nodup_eq_of_mem {l : List (Nat × α)}
    (hn : (l.map Prod.fst).Nodup) {kv kv' : Nat × α}
    (h : kv ∈ l) (h' : kv' ∈ l) (hk : kv.1 = kv'.1) : kv = kv' := by
  induction l with
  | nil => simp at h
  | cons hd t ih =>
    simp only [List.map_cons, List.nodup_cons] at hn
    rcases List.mem_cons.mp h with rfl | hm <;>
      rcases List.mem_cons.mp h' with h2 | hm2
    · exact h2.symm
    · refine absurd ?_ hn.1
      rw [hk]
      exact List.mem_map_of_mem Prod.fst hm2
    · refine absurd ?_ hn.1
      rw [← h2, ← hk]
      exact List.mem_map_of_mem Prod.fst hm
    · exact ih hn.2 hm hm2

theorem not_mem_keys_of_lt {l : List (Nat × α)} {n : Nat}
    (h : ∀ kv ∈ l, kv.1 < n) : n ∉ l.map Prod.fst := by
  intro hmem
  rcases List.mem_map.mp hmem with ⟨kv, hkv, hfst⟩
  exact absurd (hfst ▸ h kv hkv) (lt_irrefl n)

/-- Every entry of `dinsert l k v` is the new entry or an old one. -/
theorem mem_of_mem_dinsert {l : List (Nat × α)} {k : Nat} {v : α}
    {kv : Nat × α} (h : kv ∈ dinsert l k v) : kv = (k, v) ∨ kv ∈ l := by
  induction l with
  | nil => simpa [dinsert] using h
  | cons hd t ih =>
    rw [dinsert] at h
    split at h
    · rcases List.mem_cons.mp h with h | h
      · exact Or.inl h
      · exact Or.inr (List.mem_cons_of_mem _ h)
    · rcases List.mem_cons.mp h with h | h
      · exact Or.inr (h ▸ List.mem_cons_self hd t)
      · rcases ih h with h | h
        · exact Or.inl h
        · exact Or.inr (List.mem_cons_of_mem _ h)

/-- Replacing the value at one key leaves the key sequence unchanged. -/
theorem map_fst_cond (l : List (Nat × α)) (k : Nat) (x : α) :
    ((l.map fun kv => if kv.1 = k then (k, x) else kv).map Prod.fst) =
      l.map Prod.fst := by
  rw [List.map_map]
  refine List.map_congr_left ?_
  intro kv _
  by_cases h : kv.1 = k <;> simp [h]

/-- Inserting with `dinsert` at a present key leaves any value projection that agrees on
the old and new value unchanged on the whole list. -/
theorem map_dinsert_congr (f : α → β) {l : List (Nat × α)} {k : Nat}
    {w : α} (v : α) (hget : dget l k = some w) (hf : f v = f w) :
    ((dinsert l k v).map fun kv => f kv.2) = l.map fun kv => f kv.2 := by
  induction l with
  | nil => simp [dget] at hget
  | cons hd t ih =>
    rw [dget] at hget
    rw [dinsert]
    split at hget
    · rename_i hk
      rw [if_pos hk]
      cases hget
      simp [hf]
    · rename_i hk
      rw [if_neg hk, List.map_cons, List.map_cons, ih hget]

/-- The availability check succeeds iff no stored booking overlaps the
requested range in the closed-interval sense. -/
theorem is_available_iff {car : Car} {sd ed : Int} :
    car.is_available sd ed = true ↔
      ∀ b ∈ car.bookings, ¬ (sd ≤ b.end_date ∧ b.start_date ≤ ed) := by
  simp [Car.is_available, List.all_eq_true, not_and, Decidable.imp_iff_not_or]

/-- Anatomy of a successful `book_car` call: the user and car were found,
the car was available, and the state update appends the fresh booking to
the car's list (updating the car in place) and inserts it into the ledger
under the freshly assigned identifier. -/
theorem book_car_ok {s s' : RentalService} {uid cid : Nat} {sd ed : Int}
    {b : Booking} (h : s.book_car uid cid sd ed = .ok (s', b)) :
    ∃ user car, s.get_user uid = some user ∧ s.get_car cid = some car ∧
      car.is_available sd ed = true ∧
      b = { id := s.booking_ctr, user_id := user.id, car_id := car.id,
            start_date := sd, end_date := ed } ∧
      s' = { s with
             cars := dinsert s.cars cid
               { car with bookings := car.bookings ++ [b] },
             bookings := dinsert s.bookings s.booking_ctr b,
             booking_ctr := s.booking_ctr + 1 } := by
  unfold RentalService.book_car at h
  split at h
  · exact absurd h (by simp)
  · rename_i user hu
    split at h
    · exact absurd h (by simp)
    · rename_i car hc
      split at h
      · rename_i ha
        simp only [Except.ok.injEq, Prod.mk.injEq] at h
        obtain ⟨h1, h2⟩ := h
        subst h2
        exact ⟨user, car, hu, hc, ha, rfl, h1.symm⟩
      · exact absurd h (by simp)

/-- The system invariant, preserved by every operation: each store maps an
identifier to the entity carrying that identifier, identifiers are below
their counter and strictly increasing in insertion order, no car holds
overlapping bookings, and the ledger and the per-car booking lists are
mutually consistent (each ledger booking sits exactly once in the list of
the car it references and nowhere else; its user and car resolve; each
listed booking is in the ledger). -/
structure SysInv (s : RentalService) : Prop where
  ukey : ∀ kv ∈ s.users, kv.1 = kv.2.id
  ult : ∀ kv ∈ s.users, kv.2.id < s.user_ctr
  uinc : (s.users.map Prod.fst).Pairwise (· < ·)
  ckey : ∀ kv ∈ s.cars, kv.1 = kv.2.id
  clt : ∀ kv ∈ s.cars, kv.2.id < s.car_ctr
  cinc : (s.cars.map Prod.fst).Pairwise (· < ·)
  bkey : ∀ kv ∈ s.bookings, kv.1 = kv.2.id
  blt : ∀ kv ∈ s.bookings, kv.2.id < s.booking_ctr
  binc : (s.bookings.map Prod.fst).Pairwise (· < ·)
  cblt : ∀ cv ∈ s.cars, ∀ b ∈ cv.2.bookings, b.id < s.booking_ctr
  noov : ∀ cv ∈ s.cars, cv.2.bookings.Pairwise nonOverlap
  once : ∀ kv ∈ s.bookings, ∀ cv ∈ s.cars,
    cv.2.bookings.count kv.2 = if cv.2.id = kv.2.car_id then 1 else 0
  ures : ∀ kv ∈ s.bookings, (dget s.users kv.2.user_id).isSome
  cres : ∀ kv ∈ s.bookings, (dget s.cars kv.2.car_id).isSome
  ledg : ∀ cv ∈ s.cars, ∀ b ∈ cv.2.bookings, ∃ kv ∈ s.bookings, kv.2 = b

theorem inv_empty : SysInv RentalService.empty := by
  constructor <;> simp [RentalService.empty]

theorem dget_append_left {l l' : List (Nat × α)} {k : Nat}
    (h : (dget l k).isSome) : (dget (l ++ l') k).isSome := by
  rw [dget_isSome_iff] at h ⊢
  rw [List.map_append]
  exact List.mem_append_left _ h

theorem user_keys_lt {s : RentalService} (hI : SysInv s) :
    ∀ kv ∈ s.users, kv.1 < s.user_ctr := fun kv hkv => by
  rw [hI.ukey kv hkv]; exact hI.ult kv hkv

theorem car_keys_lt {s : RentalService} (hI : SysInv s) :
    ∀ kv ∈ s.cars, kv.1 < s.car_ctr := fun kv hkv => by
  rw [hI.ckey kv hkv]; exact hI.clt kv hkv

theorem booking_keys_lt {s : RentalService} (hI : SysInv s) :
    ∀ kv ∈ s.bookings, kv.1 < s.booking_ctr := fun kv hkv => by
  rw [hI.bkey kv hkv]; exact hI.blt kv hkv

/-- The car a ledger booking references has an identifier below the car
counter (it resolves in the store). -/
theorem carid_lt {s : RentalService} (hI : SysInv s) {kv : Nat × Booking}
    (h : kv ∈ s.bookings) : kv.2.car_id < s.car_ctr := by
  have hres := hI.cres kv h
  rw [dget_isSome_iff] at hres
  rcases List.mem_map.mp hres with ⟨cv, hcv, hfst⟩
  rw [← hfst, hI.ckey cv hcv]
  exact hI.clt cv hcv

theorem inv_add_user {s : RentalService} (hI : SysInv s)
    (name email : String) : SysInv (s.add_user name email).1 := by
  have hfresh : s.user_ctr ∉ s.users.map Prod.fst :=
    not_mem_keys_of_lt (user_keys_lt hI)
  simp only [RentalService.add_user]
  rw [dinsert_of_not_mem _ hfresh]
  constructor
  case ukey =>
    intro kv hkv
    rcases List.mem_append.mp hkv with h | h
    · exact hI.ukey kv h
    · simp only [List.mem_singleton] at h
      subst h; rfl
  case ult =>
    intro kv hkv
    rcases List.mem_append.mp hkv with h | h
    · exact Nat.lt_succ_of_lt (hI.ult kv h)
    · simp only [List.mem_singleton] at h
      subst h; exact Nat.lt_succ_self _
  case uinc =>
    rw [List.map_append, List.pairwise_append]
    refine ⟨hI.uinc, by simp, ?_⟩
    intro a ha b hb
    simp only [List.map_cons, List.map_nil, List.mem_singleton] at hb
    subst hb
    rcases List.mem_map.mp ha with ⟨kv, hkv, hfst⟩
    exact hfst ▸ user_keys_lt hI kv hkv
  case ckey => exact hI.ckey
  case clt => exact hI.clt
  case cinc => exact hI.cinc
  case bkey => exact hI.bkey
  case blt => exact hI.blt
  case binc => exact hI.binc
  case cblt => exact hI.cblt
  case noov => exact hI.noov
  case once => exact hI.once
  case ures =>
    intro kv hkv
    exact dget_append_left (hI.ures kv hkv)
  case cres => exact hI.cres
  case ledg => exact hI.ledg

theorem inv_add_car {s : RentalService} (hI : SysInv s)
    (name car_type : String) (price : Int) :
    SysInv (s.add_car name car_type price).1 := by
  have hfresh : s.car_ctr ∉ s.cars.map Prod.fst :=
    not_mem_keys_of_lt (car_keys_lt hI)
  simp only [RentalService.add_car]
  rw [dinsert_of_not_mem _ hfresh]
  constructor
  case ukey => exact hI.ukey
  case ult => exact hI.ult
  case uinc => exact hI.uinc
  case ckey =>
    intro kv hkv
    rcases List.mem_append.mp hkv with h | h
    · exact hI.ckey kv h
    · simp only [List.mem_singleton] at h
      subst h; rfl
  case clt =>
    intro kv hkv
    rcases List.mem_append.mp hkv with h | h
    · exact Nat.lt_succ_of_lt (hI.clt kv h)
    · simp only [List.mem_singleton] at h
      subst h; exact Nat.lt_succ_self _
  case cinc =>
    rw [List.map_append, List.pairwise_append]
    refine ⟨hI.cinc, by simp, ?_⟩
    intro a ha b hb
    simp only [List.map_cons, List.map_nil, List.mem_singleton] at hb
    subst hb
    rcases List.mem_map.mp ha with ⟨kv, hkv, hfst⟩
    exact hfst ▸ car_keys_lt hI kv hkv
  case bkey => exact hI.bkey
  case blt => exact hI.blt
  case binc => exact hI.binc
  case cblt =>
    intro cv hcv b hb
    rcases List.mem_append.mp hcv with h | h
    · exact hI.cblt cv h b hb
    · simp only [List.mem_singleton] at h
      subst h
      simp at hb
  case noov =>
    intro cv hcv
    rcases List.mem_append.mp hcv with h | h
    · exact hI.noov cv h
    · simp only [List.mem_singleton] at h
      subst h
      simp
  case once =>
    intro kv hkv cv hcv
    rcases List.mem_append.mp hcv with h | h
    · exact hI.once kv hkv cv h
    · simp only [List.mem_singleton] at h
      subst h
      rw [if_neg (Nat.ne_of_gt (carid_lt hI hkv))]
      simp
  case ures => exact hI.ures
  case cres =>
    intro kv hkv
    exact dget_append_left (hI.cres kv hkv)
  case ledg =>
    intro cv hcv b hb
    rcases List.mem_append.mp hcv with h | h
    · exact hI.ledg cv h b hb
    · simp only [List.mem_singleton] at h
      subst h
      simp at hb

theorem inv_book_ok {s s' : RentalService} {uid cid : Nat} {sd ed : Int}
    {b : Booking} (hI : SysInv s)
    (h : s.book_car uid cid sd ed = .ok (s', b)) : SysInv s' := by
  obtain ⟨user, car, hu, hc, ha, hb, hs'⟩ := book_car_ok h
  subst hb
  have hcget : dget s.cars cid = some car := hc
  have hcarmem : (cid, car) ∈ s.cars := mem_of_dget_eq_some hcget
  have husermem : (uid, user) ∈ s.users := mem_of_dget_eq_some hu
  have hcarid : car.id = cid := (hI.ckey _ hcarmem).symm
  have huserid : user.id = uid := (hI.ukey _ husermem).symm
  have hbfresh : s.booking_ctr ∉ s.bookings.map Prod.fst :=
    not_mem_keys_of_lt (booking_keys_lt hI)
  have hnodup : (s.cars.map Prod.fst).Nodup :=
    hI.cinc.imp fun h12 => Nat.ne_of_lt h12
  have hbnotold : ∀ cv ∈ s.cars,
      ({ id := s.booking_ctr, user_id := user.id, car_id := car.id,
         start_date := sd, end_date := ed } : Booking) ∉ cv.2.bookings := by
    intro cv hcv hmem
    exact absurd (hI.cblt cv hcv _ hmem) (lt_irrefl _)
  have hbneq : ∀ kv ∈ s.bookings,
      kv.2 ≠ ({ id := s.booking_ctr, user_id := user.id, car_id := car.id,
                start_date := sd, end_date := ed } : Booking) := by
    intro kv hkv he
    have hlt := hI.blt kv hkv
    rw [he] at hlt
    exact absurd hlt (lt_irrefl _)
  subst hs'
  rw [dinsert_eq_map _ hnodup hcarmem, dinsert_of_not_mem _ hbfresh]
  constructor
  case ukey => exact hI.ukey
  case ult => exact hI.ult
  case uinc => exact hI.uinc
  case ckey =>
    intro kv hkv
    rcases List.mem_map.mp hkv with ⟨cv, hcv, rfl⟩
    by_cases hx : cv.1 = cid
    · rw [if_pos hx]
      exact hcarid.symm
    · rw [if_neg hx]
      exact hI.ckey cv hcv
  case clt =>
    intro kv hkv
    rcases List.mem_map.mp hkv with ⟨cv, hcv, rfl⟩
    by_cases hx : cv.1 = cid
    · rw [if_pos hx]
      exact hI.clt (cid, car) hcarmem
    · rw [if_neg hx]
      exact hI.clt cv hcv
  case cinc =>
    rw [map_fst_cond]
    exact hI.cinc
  case bkey =>
    intro kv hkv
    rcases List.mem_append.mp hkv with h1 | h1
    · exact hI.bkey kv h1
    · simp only [List.mem_singleton] at h1
      subst h1; rfl
  case blt =>
    intro kv hkv
    rcases List.mem_append.mp hkv with h1 | h1
    · exact Nat.lt_succ_of_lt (hI.blt kv h1)
    · simp only [List.mem_singleton] at h1
      subst h1
      exact Nat.lt_succ_self _
  case binc =>
    rw [List.map_append, List.pairwise_append]
    refine ⟨hI.binc, by simp, ?_⟩
    intro a ha2 b2 hb2
    simp only [List.map_cons, List.map_nil, List.mem_singleton] at hb2
    subst hb2
    rcases List.mem_map.mp ha2 with ⟨kv, hkv, hfst⟩
    exact hfst ▸ booking_keys_lt hI kv hkv
  case cblt =>
    intro cv' hcv' b0 hb0
    rcases List.mem_map.mp hcv' with ⟨cv, hcv, rfl⟩
    by_cases hx : cv.1 = cid
    · rw [if_pos hx] at hb0
      rcases List.mem_append.mp hb0 with h1 | h1
      · exact Nat.lt_succ_of_lt (hI.cblt (cid, car) hcarmem b0 h1)
      · simp only [List.mem_singleton] at h1
        subst h1
        exact Nat.lt_succ_self _
    · rw [if_neg hx] at hb0
      exact Nat.lt_succ_of_lt (hI.cblt cv hcv b0 hb0)
  case noov =>
    intro cv' hcv'
    rcases List.mem_map.mp hcv' with ⟨cv, hcv, rfl⟩
    by_cases hx : cv.1 = cid
    · rw [if_pos hx]
      show (car.bookings ++ [_]).Pairwise nonOverlap
      rw [List.pairwise_append]
      refine ⟨hI.noov (cid, car) hcarmem, by simp, ?_⟩
      intro a ha2 b2 hb2
      simp only [List.mem_singleton] at hb2
      subst hb2
      intro hov
      exact (is_available_iff.mp ha a ha2) ⟨hov.2, hov.1⟩
    · rw [if_neg hx]
      exact hI.noov cv hcv
  case once =>
    intro kv hkv cv' hcv'
    rcases List.mem_map.mp hcv' with ⟨cv, hcv, rfl⟩
    rcases List.mem_append.mp hkv with h1 | h1
    · by_cases hx : cv.1 = cid
      · rw [if_pos hx]
        show (car.bookings ++ [_]).count kv.2 = _
        rw [List.count_append]
        have hz : ([({ id := s.booking_ctr, user_id := user.id, car_id := car.id, start_date := sd, end_date := ed } : Booking)] : List Booking).count kv.2 = 0 := by
          rw [List.count_eq_zero]
          simp only [List.mem_singleton]
          exact hbneq kv h1
        rw [hz, Nat.add_zero]
        exact hI.once kv h1 (cid, car) hcarmem
      · rw [if_neg hx]
        exact hI.once kv h1 cv hcv
    · simp only [List.mem_singleton] at h1
      subst h1
      by_cases hx : cv.1 = cid
      · rw [if_pos hx]
        show (car.bookings ++ [_]).count _ = _
        rw [List.count_append]
        have hz : car.bookings.count
            ({ id := s.booking_ctr, user_id := user.id, car_id := car.id,
               start_date := sd, end_date := ed } : Booking) = 0 := by
          rw [List.count_eq_zero]
          exact hbnotold (cid, car) hcarmem
        rw [hz, Nat.zero_add, if_pos rfl]
        simp
      · rw [if_neg hx]
        have hz : cv.2.bookings.count
            ({ id := s.booking_ctr, user_id := user.id, car_id := car.id,
               start_date := sd, end_date := ed } : Booking) = 0 := by
          rw [List.count_eq_zero]
          exact hbnotold cv hcv
        rw [hz, if_neg fun he => hx (by rw [hI.ckey cv hcv]; exact he.trans hcarid)]
  case ures =>
    intro kv hkv
    rcases List.mem_append.mp hkv with h1 | h1
    · exact hI.ures kv h1
    · simp only [List.mem_singleton] at h1
      subst h1
      show (dget s.users user.id).isSome
      have huget : dget s.users uid = some user := hu
      rw [huserid, huget]
      rfl
  case cres =>
    intro kv hkv
    rw [dget_isSome_iff, map_fst_cond]
    rcases List.mem_append.mp hkv with h1 | h1
    · rw [← dget_isSome_iff]
      exact hI.cres kv h1
    · simp only [List.mem_singleton] at h1
      subst h1
      show car.id ∈ s.cars.map Prod.fst
      rw [hcarid]
      rw [← dget_isSome_iff, hcget]
      rfl
  case ledg =>
    intro cv' hcv' b0 hb0
    rcases List.mem_map.mp hcv' with ⟨cv, hcv, rfl⟩
    by_cases hx : cv.1 = cid
    · rw [if_pos hx] at hb0
      rcases List.mem_append.mp hb0 with h1 | h1
      · obtain ⟨kv, hkv, hkv2⟩ := hI.ledg (cid, car) hcarmem b0 h1
        exact ⟨kv, List.mem_append_left _ hkv, hkv2⟩
      · simp only [List.mem_singleton] at h1
        subst h1
        refine ⟨(s.booking_ctr, _), ?_, rfl⟩
        exact List.mem_append_right _ (List.mem_singleton.mpr rfl)
    · rw [if_neg hx] at hb0
      obtain ⟨kv, hkv, hkv2⟩ := hI.ledg cv hcv b0 hb0
      exact ⟨kv, List.mem_append_left _ hkv, hkv2⟩

/-- Every operation preserves the system invariant. -/
theorem inv_exec {s : RentalService} (hI : SysInv s) (op : Op) :
    SysInv (exec s op) := by
  cases op with
  | addUser name email => exact inv_add_user hI name email
  | addCar name car_type price => exact inv_add_car hI name car_type price
  | book uid cid sd ed =>
    cases h : s.book_car uid cid sd ed with
    | ok p =>
      obtain ⟨s', b⟩ := p
      have : exec s (Op.book uid cid sd ed) = s' := by
        simp [exec, h]
      rw [this]
      exact inv_book_ok hI h
    | error e =>
      have : exec s (Op.book uid cid sd ed) = s := by
        simp [exec, h]
      rw [this]
      exact hI
  | bookE uid cid sd ed =>
    by_cases hlt : ed < sd
    · have : exec s (Op.bookE uid cid sd ed) = s := by
        simp [exec, RentalService.book_endpoint, hlt]
      rw [this]
      exact hI
    · cases h : s.book_car uid cid sd ed with
      | ok p =>
        obtain ⟨s', b⟩ := p
        have : exec s (Op.bookE uid cid sd ed) = s' := by
          simp [exec, RentalService.book_endpoint, hlt, h]
        rw [this]
        exact inv_book_ok hI h
      | error e =>
        have : exec s (Op.bookE uid cid sd ed) = s := by
          simp [exec, RentalService.book_endpoint, hlt, h]
        rw [this]
        exact hI
  | listCars => exact hI
  | listBookings => exact hI

/-- Every reachable state satisfies the system invariant. -/
theorem reachable_inv {s : RentalService} (h : Reachable s) : SysInv s := by
  induction h with
  | init => exact inv_empty
  | step op _ ih => exact inv_exec ih op

/-- One range-respecting step keeps every ledger range well-formed. -/
theorem ranges_ok_exec {s : RentalService} {op : Op}
    (hW : ∀ kv ∈ s.bookings, kv.2.start_date ≤ kv.2.end_date)
    (hop : op.rangeOk = true) :
    ∀ kv ∈ (exec s op).bookings, kv.2.start_date ≤ kv.2.end_date := by
  cases op with
  | addUser name email => exact hW
  | addCar name car_type price => exact hW
  | book uid cid sd ed =>
    cases h : s.book_car uid cid sd ed with
    | ok p =>
      obtain ⟨s', b⟩ := p
      have hx : exec s (Op.book uid cid sd ed) = s' := by simp [exec, h]
      rw [hx]
      obtain ⟨user, car, hu, hc, ha, hb, hs'⟩ := book_car_ok h
      subst hb hs'
      intro kv hkv
      rcases mem_of_mem_dinsert hkv with h1 | h1
      · subst h1
        simpa [Op.rangeOk] using hop
      · exact hW kv h1
    | error e =>
      have hx : exec s (Op.book uid cid sd ed) = s := by simp [exec, h]
      rw [hx]
      exact hW
  | bookE uid cid sd ed =>
    by_cases hlt : ed < sd
    · have hx : exec s (Op.bookE uid cid sd ed) = s := by
        simp [exec, RentalService.book_endpoint, hlt]
      rw [hx]
      exact hW
    · cases h : s.book_car uid cid sd ed with
      | ok p =>
        obtain ⟨s', b⟩ := p
        have hx : exec s (Op.bookE uid cid sd ed) = s' := by
          simp [exec, RentalService.book_endpoint, hlt, h]
        rw [hx]
        obtain ⟨user, car, hu, hc, ha, hb, hs'⟩ := book_car_ok h
        subst hb hs'
        intro kv hkv
        rcases mem_of_mem_dinsert hkv with h1 | h1
        · subst h1
          exact Int.not_lt.mp hlt
        · exact hW kv h1
      | error e =>
        have hx : exec s (Op.bookE uid cid sd ed) = s := by
          simp [exec, RentalService.book_endpoint, hlt, h]
        rw [hx]
        exact hW
  | listCars => exact hW
  | listBookings => exact hW

/-- Range-respecting traces keep every ledger range well-formed. -/
theorem ranges_ok_run {ops : List Op} {s : RentalService}
    (hW : ∀ kv ∈ s.bookings, kv.2.start_date ≤ kv.2.end_date)
    (hops : ∀ op ∈ ops, op.rangeOk = true) :
    ∀ kv ∈ (run s ops).bookings, kv.2.start_date ≤ kv.2.end_date := by
  induction ops generalizing s with
  | nil => exact hW
  | cons op t ih =>
    exact ih (ranges_ok_exec hW (hops op (List.mem_cons_self op t)))
      fun o ho => hops o (List.mem_cons_of_mem op ho)

/-- A successful core booking does not change `list_cars`: only the booked
car's booking list is updated in place, and `to_dict` ignores it. -/
theorem list_cars_book_ok {s s' : RentalService} {uid cid : Nat}
    {sd ed : Int} {b : Booking}
    (h : s.book_car uid cid sd ed = .ok (s', b)) :
    s'.list_cars = s.list_cars := by
  obtain ⟨user, car, hu, hc, ha, hb, hs'⟩ := book_car_ok h
  subst hs'
  have hcget : dget s.cars cid = some car := hc
  exact map_dinsert_congr Car.to_dict _ hcget rfl

/-- Any single booking attempt, successful or failed, through either
layer, leaves `list_cars` unchanged. -/
theorem list_cars_exec_book {s : RentalService} {op : Op}
    (hop : op.isBook = true) : (exec s op).list_cars = s.list_cars := by
  cases op with
  | addUser name email => simp [Op.isBook] at hop
  | addCar name car_type price => simp [Op.isBook] at hop
  | listCars => rfl
  | listBookings => rfl
  | book uid cid sd ed =>
    cases h : s.book_car uid cid sd ed with
    | ok p =>
      obtain ⟨s', b⟩ := p
      have hx : exec s (Op.book uid cid sd ed) = s' := by simp [exec, h]
      rw [hx]
      exact list_cars_book_ok h
    | error e =>
      have hx : exec s (Op.book uid cid sd ed) = s := by simp [exec, h]
      rw [hx]
  | bookE uid cid sd ed =>
    by_cases hlt : ed < sd
    · have hx : exec s (Op.bookE uid cid sd ed) = s := by
        simp [exec, RentalService.book_endpoint, hlt]
      rw [hx]
    · cases h : s.book_car uid cid sd ed with
      | ok p =>
        obtain ⟨s', b⟩ := p
        have hx : exec s (Op.bookE uid cid sd ed) = s' := by
          simp [exec, RentalService.book_endpoint, hlt, h]
        rw [hx]
        exact list_cars_book_ok h
      | error e =>
        have hx : exec s (Op.bookE uid cid sd ed) = s := by
          simp [exec, RentalService.book_endpoint, hlt, h]
        rw [hx]

/-- A trace of booking attempts leaves `list_cars` unchanged. -/
theorem list_cars_run_book {ops : List Op} {s : RentalService}
    (hops : ∀ op ∈ ops, op.isBook = true) :
    (run s ops).list_cars = s.list_cars := by
  induction ops generalizing s with
  | nil => rfl
  | cons op t ih =>
    have hstep : run s (op :: t) = run (exec s op) t := rfl
    rw [hstep, ih fun o ho => hops o (List.mem_cons_of_mem op ho),
      list_cars_exec_book (hops op (List.mem_cons_self op t))]

/-- The demonstration state is reachable. -/
theorem reachable_demo : Reachable demoState :=
  Reachable.step (Op.book 1 1 10 12)
    (Reachable.step (Op.addCar "Peugeot 208" "Economy" 45)
      (Reachable.step (Op.addUser "Alice" "alice@example.com")
        Reachable.init))

/-- C1: in every reachable state of the rental service — any sequence of
user/car registrations and booking attempts, successful or failed — no two
bookings in any car's booking list overlap under the closed-interval
overlap definition. -/
theorem no_overlapping_bookings {s : RentalService} (h : Reachable s) :
    ∀ cv ∈ s.cars, cv.2.bookings.Pairwise nonOverlap :=
  (reachable_inv h).noov

theorem no_overlapping_bookings_witness :
    demoCar.bookings.Pairwise nonOverlap :=
  no_overlapping_bookings reachable_demo (1, demoCar) (by decide)

/-- C2: the check `is_available` reports the car available iff no stored booking
`[s, e]` satisfies `newStart ≤ e ∧ s ≤ newEnd`; in particular touching
well-formed ranges (`newStart = e` or `newEnd = s`) are treated as
overlapping, so the check reports unavailable for them. -/
theorem is_available_closed_overlap (car : Car) (sd ed : Int) :
    (car.is_available sd ed = true ↔
      ∀ b ∈ car.bookings, ¬ (sd ≤ b.end_date ∧ b.start_date ≤ ed)) ∧
    (∀ b ∈ car.bookings, b.start_date ≤ b.end_date → sd ≤ ed →
      (sd = b.end_date ∨ ed = b.start_date) →
      car.is_available sd ed = false) := by
  refine ⟨is_available_iff, ?_⟩
  intro b hb hwf hreq hor
  cases hvail : car.is_available sd ed with
  | false => rfl
  | true =>
    exfalso
    refine (is_available_iff.mp hvail b hb) ?_
    rcases hor with hor | hor
    · exact ⟨le_of_eq hor, le_trans hwf (by rw [← hor]; exact hreq)⟩
    · exact ⟨le_trans (le_trans hreq (le_of_eq hor)) hwf, le_of_eq hor.symm⟩

theorem is_available_closed_overlap_witness :
    wBooking.start_date ≤ wBooking.end_date ∧
    wCar.is_available 20 25 = false ∧ wCar.is_available 5 10 = false :=
  ⟨by decide,
   (is_available_closed_overlap wCar 20 25).2 wBooking (by simp [wCar])
     (by decide) (by decide) (Or.inl (by decide)),
   (is_available_closed_overlap wCar 5 10).2 wBooking (by simp [wCar])
     (by decide) (by decide) (Or.inr (by decide))⟩

/-- C3 counterexample: calling the core booking service directly with the
inverted range `start = 5 > 3 = end` succeeds (`book_car` never compares
the two dates) and stores a booking whose start exceeds its end, so the
claim is false for arbitrary date arguments to the core service. -/
theorem inverted_range_stored :
    ¬ (∀ kv ∈ invertedState.bookings,
        kv.2.start_date ≤ kv.2.end_date) := by
  decide

/-- C3 (amended): along any trace whose direct core `book` calls all have
`start ≤ end` — which the transport endpoint guarantees by rejecting
`end < start` before calling the core — every booking ever stored in the
ledger has `start ≤ end`. -/
theorem ledger_ranges_wellformed (ops : List Op)
    (h : ∀ op ∈ ops, op.rangeOk = true) :
    ∀ kv ∈ (run RentalService.empty ops).bookings,
      kv.2.start_date ≤ kv.2.end_date :=
  ranges_ok_run (by simp [RentalService.empty]) h

theorem ledger_ranges_wellformed_witness :
    demoOps.all Op.rangeOk = true ∧
    demoBooking.start_date ≤ demoBooking.end_date :=
  ⟨by decide,
   ledger_ranges_wellformed demoOps (by decide) (1, demoBooking) (by decide)⟩

/-- C4: whenever the user id does not resolve, `book_car` fails with the
user-not-found error, whatever the car id and the dates are (the core
performs the user lookup first and never inspects the dates). -/
theorem book_car_user_not_found {s : RentalService} {uid cid : Nat}
    {sd ed : Int} (h : s.get_user uid = none) :
    s.book_car uid cid sd ed = .error (.userNotFound uid) := by
  unfold RentalService.book_car
  rw [h]

theorem book_car_user_not_found_witness :
    RentalService.empty.get_user 7 = none ∧
    RentalService.empty.book_car 7 9 5 3 = .error (.userNotFound 7) :=
  ⟨rfl, book_car_user_not_found rfl⟩

/-- C5: when the user and the car both exist and `end < start`, the
booking pipeline (whose range check sits in the transport layer, lines
210-211) fails with the invalid-range error and leaves the state — hence
the ledger — unchanged. -/
theorem book_endpoint_invalid_range {s : RentalService} {uid cid : Nat}
    {sd ed : Int} (hu : (s.get_user uid).isSome)
    (hc2 : (s.get_car cid).isSome) (hlt : ed < sd) :
    s.book_endpoint uid cid sd ed = .error .invalidRange ∧
    exec s (Op.bookE uid cid sd ed) = s := by
  have h1 : s.book_endpoint uid cid sd ed = .error .invalidRange := by
    unfold RentalService.book_endpoint
    rw [if_pos hlt]
  refine ⟨h1, ?_⟩
  simp [exec, RentalService.book_endpoint, hlt]

theorem book_endpoint_invalid_range_witness :
    demoState.book_endpoint 1 1 5 3 = .error .invalidRange ∧
    exec demoState (Op.bookE 1 1 5 3) = demoState :=
  book_endpoint_invalid_range (by decide) (by decide) (by decide)

/-- C6: in every reachable state, the identifiers of each kind (user, car,
booking), read in the order the entities were stored — which is the order
their creations succeeded — form a strictly increasing sequence, hence no
identifier is ever assigned twice within its kind. -/
theorem ids_strictly_increasing {s : RentalService} (h : Reachable s) :
    ((s.users.map fun kv => kv.2.id).Pairwise (· < ·) ∧
      (s.users.map fun kv => kv.2.id).Nodup) ∧
    ((s.cars.map fun kv => kv.2.id).Pairwise (· < ·) ∧
      (s.cars.map fun kv => kv.2.id).Nodup) ∧
    ((s.bookings.map fun kv => kv.2.id).Pairwise (· < ·) ∧
      (s.bookings.map fun kv => kv.2.id).Nodup) := by
  have hI := reachable_inv h
  have hu : (s.users.map fun kv => kv.2.id) = s.users.map Prod.fst :=
    List.map_congr_left fun kv hkv => (hI.ukey kv hkv).symm
  have hc : (s.cars.map fun kv => kv.2.id) = s.cars.map Prod.fst :=
    List.map_congr_left fun kv hkv => (hI.ckey kv hkv).symm
  have hb : (s.bookings.map fun kv => kv.2.id) = s.bookings.map Prod.fst :=
    List.map_congr_left fun kv hkv => (hI.bkey kv hkv).symm
  rw [hu, hc, hb]
  exact ⟨⟨hI.uinc, hI.uinc.imp fun hlt => Nat.ne_of_lt hlt⟩,
    ⟨hI.cinc, hI.cinc.imp fun hlt => Nat.ne_of_lt hlt⟩,
    ⟨hI.binc, hI.binc.imp fun hlt => Nat.ne_of_lt hlt⟩⟩

theorem ids_strictly_increasing_witness :
    ((demoState.users.map fun kv => kv.2.id).Pairwise (· < ·) ∧
      (demoState.users.map fun kv => kv.2.id).Nodup) ∧
    ((demoState.cars.map fun kv => kv.2.id).Pairwise (· < ·) ∧
      (demoState.cars.map fun kv => kv.2.id).Nodup) ∧
    ((demoState.bookings.map fun kv => kv.2.id).Pairwise (· < ·) ∧
      (demoState.bookings.map fun kv => kv.2.id).Nodup) :=
  ids_strictly_increasing reachable_demo

/-- C7: a failing `book_car` call leaves the whole store (users, cars and
their booking lists, ledger, all three counters) unchanged, and calling it
again with the same arguments fails with the same error. -/
theorem book_car_failure_frame {s : RentalService} {uid cid : Nat}
    {sd ed : Int} {e : Err} (h : s.book_car uid cid sd ed = .error e) :
    exec s (Op.book uid cid sd ed) = s ∧
    (exec s (Op.book uid cid sd ed)).book_car uid cid sd ed = .error e := by
  have hx : exec s (Op.book uid cid sd ed) = s := by simp [exec, h]
  exact ⟨hx, by rw [hx]; exact h⟩

theorem book_car_failure_frame_witness :
    exec demoState (Op.book 1 1 11 13) = demoState ∧
    (exec demoState (Op.book 1 1 11 13)).book_car 1 1 11 13 =
      .error .unavailable :=
  book_car_failure_frame rfl

/-- C8: in any reachable state, registering a car appends its projection
at the end of `list_cars` (insertion order), and any sequence of booking
attempts — successful or failed, through either layer — leaves `list_cars`
unchanged. -/
theorem list_cars_order_and_frame {s : RentalService} (h : Reachable s) :
    (∀ (name car_type : String) (price : Int),
      (exec s (Op.addCar name car_type price)).list_cars =
        s.list_cars ++
          [{ id := s.car_ctr, name := name, car_type := car_type, price_per_day := price }]) ∧
    (∀ ops : List Op, (∀ op ∈ ops, op.isBook = true) →
      (run s ops).list_cars = s.list_cars) := by
  have hI := reachable_inv h
  constructor
  · intro name car_type price
    have hfresh : s.car_ctr ∉ s.cars.map Prod.fst :=
      not_mem_keys_of_lt (car_keys_lt hI)
    show ((s.add_car name car_type price).1).list_cars = _
    simp only [RentalService.add_car, RentalService.list_cars]
    rw [dinsert_of_not_mem _ hfresh, List.map_append]
    rfl
  · intro ops hops
    exact list_cars_run_book hops

theorem list_cars_order_and_frame_witness :
    (exec demoState (Op.addCar "BMW X5" "SUV" 120)).list_cars =
      demoState.list_cars ++
        [{ id := demoState.car_ctr, name := "BMW X5", car_type := "SUV", price_per_day := 120 }] ∧
    (run demoState [Op.book 1 1 11 13, Op.bookE 1 1 20 22]).list_cars =
      demoState.list_cars :=
  ⟨(list_cars_order_and_frame reachable_demo).1 "BMW X5" "SUV" 120,
   (list_cars_order_and_frame reachable_demo).2
     [Op.book 1 1 11 13, Op.bookE 1 1 20 22] (by decide)⟩

/-- C9: the listings `list_cars` and `list_bookings` are read-only and idempotent:
executing them changes nothing, so two consecutive calls return identical
sequences and leave the state unchanged. -/
theorem listings_read_only_idempotent (s : RentalService) :
    exec s Op.listCars = s ∧ exec s Op.listBookings = s ∧
    (exec s Op.listCars).list_cars = s.list_cars ∧
    (exec s Op.listBookings).list_bookings = s.list_bookings :=
  ⟨rfl, rfl, rfl, rfl⟩

/-- C10: in every reachable state the ledger and the per-car booking lists
are mutually consistent: every ledger booking is keyed by its own id,
appears exactly once in the booking list of the (unique) car it references
and zero times in every other car's list, its user and car references
resolve in the store, and every booking in any car's list is in the
ledger. -/
theorem ledger_consistency {s : RentalService} (h : Reachable s) :
    (∀ kv ∈ s.bookings, kv.1 = kv.2.id) ∧
    (s.cars.map fun kv => kv.2.id).Nodup ∧
    (∀ kv ∈ s.bookings, ∀ cv ∈ s.cars,
      cv.2.bookings.count kv.2 = if cv.2.id = kv.2.car_id then 1 else 0) ∧
    (∀ kv ∈ s.bookings,
      (s.get_user kv.2.user_id).isSome ∧ (s.get_car kv.2.car_id).isSome) ∧
    (∀ cv ∈ s.cars, ∀ b ∈ cv.2.bookings, ∃ kv ∈ s.bookings, kv.2 = b) := by
  have hI := reachable_inv h
  have hc : (s.cars.map fun kv => kv.2.id) = s.cars.map Prod.fst :=
    List.map_congr_left fun kv hkv => (hI.ckey kv hkv).symm
  refine ⟨hI.bkey, ?_, hI.once,
    fun kv hkv => ⟨hI.ures kv hkv, hI.cres kv hkv⟩, hI.ledg⟩
  rw [hc]
  exact hI.cinc.imp fun hlt => Nat.ne_of_lt hlt

theorem ledger_consistency_witness :
    (1 : Nat) = demoBooking.id ∧
    (demoState.cars.map fun kv => kv.2.id).Nodup ∧
    demoCar.bookings.count demoBooking =
      (if demoCar.id = demoBooking.car_id then 1 else 0) ∧
    ((demoState.get_user demoBooking.user_id).isSome ∧
      (demoState.get_car demoBooking.car_id).isSome) ∧
    ∃ kv ∈ demoState.bookings, kv.2 = demoBooking :=
  ⟨(ledger_consistency reachable_demo).1 (1, demoBooking) (by decide),
   (ledger_consistency reachable_demo).2.1,
   (ledger_consistency reachable_demo).2.2.1 (1, demoBooking) (by decide)
     (1, demoCar) (by decide),
   (ledger_consistency reachable_demo).2.2.2.1 (1, demoBooking) (by decide),
   (ledger_consistency reachable_demo).2.2.2.2 (1, demoCar) (by decide)
     demoBooking (by decide)⟩
